import Mathlib

/-!
Verification of the static-file request routing core of the Node adapter
(src/packages/node/src/serve-static.ts).

The embedding models:
  * the URL split on every question mark, keeping the first two components
    (req.url.split with destructuring at line 26);
  * the trailing-slash state machine (the switch at lines 38-74), with the
    fallthrough from the never arm into the ignore arm kept as a shared
    branch function;
  * the two regexes isSubresourceRegex and isActionRegex (lines 10-11);
  * base stripping and the leading-slash guarantee before delegation
    (line 76), the dotfile policy handed to send (line 80);
  * the stream event protocol (error / file / headers, lines 85-106) as a
    fold over an event list acting on a response state;
  * the upward directory walk of resolveClientDir (lines 121-124) on top of
    a faithful model of Node path.posix.dirname.

The filesystem probe fs.lstatSync(path.join(client, removeBase(urlPath)))
with its try/catch (lines 31-33) is abstracted as a Boolean predicate on the
request path (the probe is a pure function of the request path once the
client root and base are fixed; a throwing probe yields false).
The removeBase capability of the host application is an abstract function
parameter, as in the source where app.removeBase is opaque.
-/

/-! ## String primitives (JavaScript semantics) -/

/-- Membership test for a character, JS String.prototype.includes on one
character, used to model the behaviour of split. -/
def hasChar (cs : List Char) (ch : Char) : Bool :=
  cs.any (fun c => c == ch)

/-- JS s.endsWith(t). -/
def strEndsWith (s t : String) : Bool :=
  t.data.isSuffixOf s.data

/-- JS s.startsWith(t). -/
def strStartsWith (s t : String) : Bool :=
  t.data.isPrefixOf s.data

/-- JS s.slice(0, -1): the string without its final character. -/
def jsSlice0m1 (s : String) : String :=
  ⟨s.data.dropLast⟩

/-- The first two components of req.url.split on the question mark, as
destructured at line 26: the text before the first question mark, and, when
one occurs, the text between the first and the second. -/
def jsSplitQuery (u : String) : String × Option String :=
  if hasChar u.data '?' then
    (⟨u.data.takeWhile (fun c => c != '?')⟩,
     some ⟨((u.data.dropWhile (fun c => c != '?')).drop 1).takeWhile (fun c => c != '?')⟩)
  else
    (u, none)

/-! ## The two regexes of lines 10-11 -/

/-- ASCII letter of either case: what the character class of
isSubresourceRegex matches, since the regex carries the i flag. -/
def isLetterAscii (c : Char) : Bool :=
  ('a' ≤ c && c ≤ 'z') || ('A' ≤ c && c ≤ 'Z')

/-- A character the JS regex dot matches: anything but a line terminator. -/
def jsDotChar (c : Char) : Bool :=
  !(c == '\n' || c == '\r' || c.val == 0x2028 || c.val == 0x2029)

/-- isSubresourceRegex.test: the regex dot-plus, a literal dot, one or more
letters at the end of the string, case-insensitively. An unanchored match
ending at the end of the string exists exactly when the maximal run of
trailing letters is nonempty, the character before it is a literal dot, and
at least one non-line-terminator character precedes that dot. -/
def jsTestSubresource (s : String) : Bool :=
  let r := s.data.reverse
  let ext := r.takeWhile isLetterAscii
  match r.dropWhile isLetterAscii with
  | '.' :: b :: _ => !ext.isEmpty && jsDotChar b
  | _ => false

/-- The tail of isActionRegex after the optional leading slash: the literal
segment for actions followed by a slash and at least one more character. -/
def actionTail (cs : List Char) : Bool :=
  "_actions/".data.isPrefixOf cs &&
    (match cs.drop 9 with
     | c :: _ => jsDotChar c
     | [] => false)

/-- isActionRegex.test: anchored at the start, an optional slash, then the
actions segment, a slash, and at least one further character. -/
def jsTestAction (s : String) : Bool :=
  actionTail s.data ||
    (match s.data with
     | '/' :: rest => actionTail rest
     | _ => false)

/-! ## The trailing-slash state machine (lines 35-74) -/

/-- The three values of options.trailingSlash; the source defaults a missing
value to ignore before the switch. -/
inductive TrailingSlash
  | never
  | ignore
  | always
deriving DecidableEq

/-- The routing decision of the switch: a redirect (the source always writes
status 301 together with the Location header) or a pathname to serve. -/
inductive Routing
  | redirect (status : Nat) (location : String)
  | serve (pathname : String)
deriving DecidableEq

/-- The query suffix appended to a redirect location: the expression
urlQuery with a question mark when urlQuery is truthy, the empty string when
urlQuery is undefined or empty (lines 44 and 67). -/
def queryTail (urlQuery : Option String) : String :=
  match urlQuery with
  | some q => if q == "" then "" else "?" ++ q
  | none => ""

/-- The body of the ignore arm (lines 51-58), which the never arm falls
through into: a directory without a trailing slash is rewritten to its
index.html, anything else is served unchanged. -/
def ignoreBranch (isDirectory : Bool) (urlPath : String) : Routing :=
  if isDirectory && !(strEndsWith urlPath "/") then
    .serve (urlPath ++ "/index.html")
  else
    .serve urlPath

/-- The switch of lines 38-74 as a function of the policy, the base
stripping capability, the request method, the probed directory flag, the
path and the query component. -/
def normalizeCore (policy : TrailingSlash) (removeBase : String → String)
    (method : String) (isDirectory : Bool)
    (urlPath : String) (urlQuery : Option String) : Routing :=
  match policy with
  | .never =>
    if isDirectory && !(urlPath == "/") && strEndsWith urlPath "/" then
      .redirect 301 (jsSlice0m1 urlPath ++ queryTail urlQuery)
    else
      ignoreBranch isDirectory urlPath
  | .ignore => ignoreBranch isDirectory urlPath
  | .always =>
    if !(strEndsWith urlPath "/") && !(jsTestSubresource urlPath) &&
        !(jsTestAction (removeBase urlPath) && method == "POST") then
      .redirect 301 (urlPath ++ "/" ++ queryTail urlQuery)
    else
      .serve urlPath

/-! ## The orchestrating handler (lines 24-110 before the stream events) -/

/-- prependForwardSlash (lines 133-136). -/
def prependForwardSlash (pth : String) : String :=
  if strStartsWith pth "/" then pth else "/" ++ pth

/-- appendForwardSlash (lines 138-141). -/
def appendForwardSlash (pth : String) : String :=
  if strEndsWith pth "/" then pth else pth ++ "/"

/-- The dotfiles option handed to send (line 80). -/
inductive DotPolicy
  | allow
  | deny
deriving DecidableEq

/-- What the handler does with one request before any stream event: bail out
to SSR when the request has no url, finish with a redirect, or delegate a
resolved pathname together with a dotfile policy to send. -/
inductive HandlerOutcome
  | ssrNoUrl
  | redirect (status : Nat) (location : String)
  | delegate (pathname : String) (dotfiles : DotPolicy)
deriving DecidableEq

/-- True exactly on the redirect outcome. -/
def isRedirect : HandlerOutcome → Bool
  | .redirect _ _ => true
  | _ => false

/-- True exactly on the redirect decision of the normalizer. -/
def isRedirectR : Routing → Bool
  | .redirect _ _ => true
  | _ => false

/-- The request handler of lines 24-110 up to the point where the stream is
created: split the url, probe the directory, run the switch; a redirect ends
the response, a serve decision is base-stripped, gets its leading slash
guaranteed and is delegated with the dotfile policy of line 80. The dirp
parameter abstracts the probe of lines 31-33 as a function of the raw url
path. -/
def handleRequest (policy : TrailingSlash) (removeBase : String → String)
    (dirp : String → Bool) (method : String)
    (reqUrl : Option String) : HandlerOutcome :=
  match reqUrl with
  | none => .ssrNoUrl
  | some u =>
    let split := jsSplitQuery u
    let urlPath := split.1
    let urlQuery := split.2
    match normalizeCore policy removeBase method (dirp urlPath) urlPath urlQuery with
    | .redirect st loc => .redirect st loc
    | .serve p =>
      let pathname := prependForwardSlash (removeBase p)
      .delegate pathname
        (if strStartsWith pathname "/.well-known/" then .allow else .deny)

/-! ## The stream event protocol (lines 83-106) -/

/-- The three events of the send stream the handler listens to. -/
inductive StreamEvent
  | errorEv
  | fileEv
  | headersEv
deriving DecidableEq

/-- The observable per-request response state the three listeners mutate:
the forwardError flag of line 83, how often the SSR fallback ran, and the
status, body and headers written to the response. -/
structure ResponseState where
  forwardError : Bool
  ssrCalls : Nat
  statusWritten : Option Nat
  bodyWritten : Option String
  resHeaders : List (String × String)
deriving DecidableEq

/-- The state before any event fires. -/
def initialResponse : ResponseState :=
  ⟨false, 0, none, none, []⟩

/-- The far-future cache header value of line 101. -/
def immutableCacheValue : String :=
  "public, max-age=31536000, immutable"

/-- The test of line 97: the resolved pathname lies under the hashed assets
folder. -/
def assetsHit (assets pathname : String) : Bool :=
  strStartsWith pathname ("/" ++ assets ++ "/")

/-- One event firing: the error listener of lines 85-94, the headers
listener of lines 95-103 and the file listener of lines 104-106. -/
def stepEvent (assets pathname : String) (st : ResponseState) :
    StreamEvent → ResponseState
  | .errorEv =>
    if st.forwardError then
      { st with statusWritten := some 500, bodyWritten := some "Internal server error" }
    else
      { st with ssrCalls := st.ssrCalls + 1 }
  | .headersEv =>
    if assetsHit assets pathname then
      { st with resHeaders := ("Cache-Control", immutableCacheValue) :: st.resHeaders }
    else
      st
  | .fileEv => { st with forwardError := true }

/-- A whole sequence of stream events applied in order. -/
def runEvents (assets pathname : String) (evs : List StreamEvent)
    (st : ResponseState) : ResponseState :=
  evs.foldl (stepEvent assets pathname) st

/-! ## The upward walk of resolveClientDir (lines 114-130) -/

/-- Node path.posix.dirname, the exact algorithm of the Node sources: scan
from the right, skip trailing slashes, stop at the first slash below a
non-slash character; when none exists the answer is the root for rooted
paths and the dot for relative ones; a rooted path whose only such slash is
at index one yields the double slash. -/
def posixDirname (s : String) : String :=
  match s.data with
  | [] => "."
  | c0 :: t =>
    match (t.reverse.dropWhile (fun c => c == '/')).dropWhile (fun c => c != '/') with
    | [] => if c0 == '/' then "/" else "."
    | _ :: rest =>
      if c0 == '/' && rest.isEmpty then "//"
      else ⟨c0 :: rest.reverse⟩

/-- The location after n steps of taking the parent directory. -/
def iterDirname (n : Nat) (s : String) : String :=
  posixDirname^[n] s

/-- The while loop of lines 122-124 with an explicit fuel bound: keep taking
the parent until the folder name matches the end of the current location;
none means the loop was still running when the fuel ran out. -/
def walkFuel (folder : String) : Nat → String → Option String
  | 0, _ => none
  | n + 1, u =>
    if strEndsWith u folder then some u
    else walkFuel folder n (posixDirname u)

/-- Modelled from the spec: the subresource notion as worded there, which
asks for a dot followed by a LOWERCASE alphabetic extension at the end of
the last path segment; kept separate from jsTestSubresource, which follows
the source regex (whose i flag also accepts uppercase extensions). -/
def specIsSubresource (s : String) : Bool :=
  let seg := s.data.reverse.takeWhile (fun c => c != '/')
  let ext := seg.takeWhile (fun c => 'a' ≤ c && c ≤ 'z')
  match seg.dropWhile (fun c => 'a' ≤ c && c ≤ 'z') with
  | '.' :: _ => !ext.isEmpty
  | _ => false

/-- The concrete filesystem used by the idempotence counterexample: the
probe of lines 31-33 joins the raw path onto the client root, and path.join
collapses duplicate slashes, so the paths /a//, /a/ and /a all stat the same
directory. -/
def cexDirp : String → Bool :=
  fun p => p == "/a//" || p == "/a/" || p == "/a"

/-! ## Sanity checks of the executable model -/

example : jsSplitQuery "/about/?x=1" = ("/about/", some "x=1") := by decide
example : jsSplitQuery "/about" = ("/about", none) := by decide
example : jsSplitQuery "/a?b?c" = ("/a", some "b") := by decide
example : jsSplitQuery "/a?" = ("/a", some "") := by decide
example : jsTestSubresource "/logo.png" = true := by decide
example : jsTestSubresource "/logo.PNG" = true := by decide
example : jsTestSubresource "/about" = false := by decide
example : jsTestSubresource ".png" = false := by decide
example : jsTestAction "/_actions/foo" = true := by decide
example : jsTestAction "_actions/foo" = true := by decide
example : jsTestAction "/_actions/" = false := by decide
example :
    handleRequest .never id (fun p => p == "/about/") "GET" (some "/about/?x=1") =
      .redirect 301 "/about?x=1" := by decide
example :
    handleRequest .ignore id (fun p => p == "/about") "GET" (some "/about") =
      .delegate "/about/index.html" .deny := by decide
example :
    handleRequest .always id (fun _ => false) "GET" (some "/about?x=1") =
      .redirect 301 "/about/?x=1" := by decide
example :
    handleRequest .ignore id (fun _ => false) "GET" (some "/.well-known/a") =
      .delegate "/.well-known/a" .allow := by decide
example : posixDirname "/a/b" = "/a" := by decide
example : posixDirname "/a" = "/" := by decide
example : posixDirname "/" = "/" := by decide
example : posixDirname "a/b" = "a" := by decide
example : posixDirname "a" = "." := by decide
example : posixDirname "." = "." := by decide
example : posixDirname "//a" = "//" := by decide
example : posixDirname "a/" = "." := by decide
example : posixDirname "file:///app/dist/server" = "file:///app/dist" := by decide
example : iterDirname 3 "file:///x/y" = "." := by decide
example : walkFuel "server" 2 "file:///app/dist/server/chunks" =
    some "file:///app/dist/server" := by decide
example : specIsSubresource "/logo.png" = true := by decide
example : specIsSubresource "/logo.PNG" = false := by decide
example :
    runEvents "_astro" "/_astro/x.css" [.fileEv, .headersEv] initialResponse =
      ⟨true, 0, none, none, [("Cache-Control", immutableCacheValue)]⟩ := by decide
example :
    runEvents "_astro" "/about" [.errorEv] initialResponse =
      ⟨false, 1, none, none, []⟩ := by decide
example :
    runEvents "_astro" "/about" [.fileEv, .errorEv] initialResponse =
      ⟨true, 0, some 500, some "Internal server error", []⟩ := by decide

/-! ## Helper lemmas on the string primitives -/

theorem strData_append (s t : String) : (s ++ t).data = s.data ++ t.data := rfl

theorem strMk_data (s : String) : (⟨s.data⟩ : String) = s := rfl

theorem hasChar_append (xs ys : List Char) (ch : Char) :
    hasChar (xs ++ ys) ch = (hasChar xs ch || hasChar ys ch) := by
  simp [hasChar, List.any_append]

theorem hasChar_false_mem {cs : List Char} {ch : Char} (h : hasChar cs ch = false) :
    ∀ x ∈ cs, (x == ch) = false := by
  intro x hx
  by_contra hq
  have hx2 : hasChar cs ch = true := by
    rw [hasChar, List.any_eq_true]
    exact ⟨x, hx, by simpa using hq⟩
  rw [h] at hx2
  exact Bool.false_ne_true hx2

theorem takeWhile_of_all {p : Char → Bool} :
    ∀ cs : List Char, (∀ x ∈ cs, p x = true) → cs.takeWhile p = cs := by
  intro cs
  induction cs with
  | nil => intro _; rfl
  | cons c t ih =>
    intro h
    have hc : p c = true := h c (by simp)
    simp [List.takeWhile_cons, hc, ih (fun x hx => h x (by simp [hx]))]

theorem takeWhile_stop {p : Char → Bool} :
    ∀ (cs : List Char) (y : Char) (ys : List Char),
      (∀ x ∈ cs, p x = true) → p y = false →
      List.takeWhile p (cs ++ y :: ys) = cs := by
  intro cs
  induction cs with
  | nil => intro y ys _ hy; simp [List.takeWhile_cons, hy]
  | cons c t ih =>
    intro y ys h hy
    have hc : p c = true := h c (by simp)
    simp [List.takeWhile_cons, hc, ih y ys (fun x hx => h x (by simp [hx])) hy]

theorem dropWhile_stop {p : Char → Bool} :
    ∀ (cs : List Char) (y : Char) (ys : List Char),
      (∀ x ∈ cs, p x = true) → p y = false →
      List.dropWhile p (cs ++ y :: ys) = y :: ys := by
  intro cs
  induction cs with
  | nil => intro y ys _ hy; simp [List.dropWhile_cons, hy]
  | cons c t ih =>
    intro y ys h hy
    have hc : p c = true := h c (by simp)
    simp [List.dropWhile_cons, hc, ih y ys (fun x hx => h x (by simp [hx])) hy]

theorem hasChar_takeWhile_ne (cs : List Char) (ch : Char) :
    hasChar (cs.takeWhile (fun c => c != ch)) ch = false := by
  rw [hasChar]
  by_contra hq
  rw [Bool.not_eq_false, List.any_eq_true] at hq
  obtain ⟨x, hx, hpx⟩ := hq
  have := List.mem_takeWhile_imp hx
  simp at hpx
  rw [hpx] at this
  simp at this

theorem hasChar_dropLast {cs : List Char} {ch : Char} (h : hasChar cs ch = false) :
    hasChar cs.dropLast ch = false := by
  by_contra hq
  rw [Bool.not_eq_false, hasChar, List.any_eq_true] at hq
  obtain ⟨x, hx, hpx⟩ := hq
  have hx2 : x ∈ cs := (List.dropLast_sublist cs).subset hx
  have : hasChar cs ch = true := by
    rw [hasChar, List.any_eq_true]; exact ⟨x, hx2, hpx⟩
  rw [h] at this
  exact Bool.false_ne_true this

theorem strEndsWith_append_slash (s : String) : strEndsWith (s ++ "/") "/" = true := by
  simp [strEndsWith, strData_append, List.isSuffixOf, List.isPrefixOf]

/-! ## Helper lemmas on the url split -/

theorem jsSplitQuery_fst (u : String) :
    (jsSplitQuery u).1 = ⟨u.data.takeWhile (fun c => c != '?')⟩ := by
  unfold jsSplitQuery
  by_cases h : hasChar u.data '?' = true
  · simp [h]
  · rw [Bool.not_eq_true] at h
    have hall : ∀ x ∈ u.data, (x != '?') = true := by
      intro x hx
      have := hasChar_false_mem h x hx
      simp [bne, this]
    simp [h, takeWhile_of_all u.data hall]

theorem jsSplitQuery_fst_no_q (u : String) :
    hasChar ((jsSplitQuery u).1).data '?' = false := by
  rw [jsSplitQuery_fst]
  exact hasChar_takeWhile_ne u.data '?'

theorem jsSplitQuery_snd_no_q (u : String) :
    ∀ q, (jsSplitQuery u).2 = some q → hasChar q.data '?' = false := by
  intro q hq
  unfold jsSplitQuery at hq
  by_cases h : hasChar u.data '?' = true
  · simp [h] at hq
    rw [← hq]
    exact hasChar_takeWhile_ne _ '?'
  · rw [Bool.not_eq_true] at h
    simp [h] at hq

theorem jsSplitQuery_single (a : String) (ha : hasChar a.data '?' = false) :
    jsSplitQuery (a ++ "?") = (a, some "") := by
  have hall : ∀ x ∈ a.data, (x != '?') = true := by
    intro x hx
    have := hasChar_false_mem ha x hx
    simp [bne, this]
  have hdata : (a ++ "?").data = a.data ++ '?' :: [] := rfl
  have hmem : hasChar (a ++ "?").data '?' = true := by
    rw [hdata, hasChar_append]
    simp [hasChar]
  unfold jsSplitQuery
  rw [hmem]
  simp only [if_pos rfl, hdata]
  rw [takeWhile_stop a.data '?' [] hall (by simp), dropWhile_stop a.data '?' [] hall (by simp)]
  simp

theorem jsSplitQuery_double (a b c : String) (ha : hasChar a.data '?' = false)
    (hb : hasChar b.data '?' = false) :
    jsSplitQuery (a ++ "?" ++ b ++ "?" ++ c) = (a, some b) := by
  have halla : ∀ x ∈ a.data, (x != '?') = true := by
    intro x hx
    have := hasChar_false_mem ha x hx
    simp [bne, this]
  have hallb : ∀ x ∈ b.data, (x != '?') = true := by
    intro x hx
    have := hasChar_false_mem hb x hx
    simp [bne, this]
  have hdata : (a ++ "?" ++ b ++ "?" ++ c).data =
      a.data ++ '?' :: (b.data ++ '?' :: c.data) := by
    simp [strData_append, List.append_assoc]
  have hmem : hasChar (a ++ "?" ++ b ++ "?" ++ c).data '?' = true := by
    rw [hdata, hasChar_append]
    simp [hasChar]
  unfold jsSplitQuery
  rw [hmem]
  simp only [if_pos rfl, hdata]
  rw [takeWhile_stop a.data '?' _ halla (by simp),
    dropWhile_stop a.data '?' _ halla (by simp)]
  simp only [List.drop_succ_cons, List.drop_zero]
  rw [takeWhile_stop b.data '?' _ hallb (by simp)]
  simp

/-! ## Helper lemmas on the event protocol -/

theorem runEvents_nil (a p : String) (st : ResponseState) :
    runEvents a p [] st = st := rfl

theorem runEvents_cons (a p : String) (e : StreamEvent) (t : List StreamEvent)
    (st : ResponseState) :
    runEvents a p (e :: t) st = runEvents a p t (stepEvent a p st e) := rfl

theorem runEvents_append (a p : String) (l1 l2 : List StreamEvent) (st : ResponseState) :
    runEvents a p (l1 ++ l2) st = runEvents a p l2 (runEvents a p l1 st) := by
  simp [runEvents, List.foldl_append]

theorem runEvents_noerror (a p : String) :
    ∀ (evs : List StreamEvent) (st : ResponseState), StreamEvent.errorEv ∉ evs →
      (runEvents a p evs st).ssrCalls = st.ssrCalls ∧
      (runEvents a p evs st).statusWritten = st.statusWritten ∧
      (runEvents a p evs st).bodyWritten = st.bodyWritten := by
  intro evs
  induction evs with
  | nil => intro st _; exact ⟨rfl, rfl, rfl⟩
  | cons e t ih =>
    intro st h
    have he : e ≠ .errorEv := by
      intro hq
      exact h (by simp [hq])
    have ht : StreamEvent.errorEv ∉ t := fun hq => h (List.mem_cons_of_mem _ hq)
    rw [runEvents_cons]
    cases e with
    | errorEv => exact absurd rfl he
    | fileEv => simpa [stepEvent] using ih _ ht
    | headersEv =>
      by_cases hh : assetsHit a p = true
      · simpa [stepEvent, hh] using ih _ ht
      · simpa [stepEvent, hh] using ih _ ht

theorem runEvents_forward_mono (a p : String) :
    ∀ (evs : List StreamEvent) (st : ResponseState), st.forwardError = true →
      (runEvents a p evs st).forwardError = true := by
  intro evs
  induction evs with
  | nil => intro st h; exact h
  | cons e t ih =>
    intro st h
    rw [runEvents_cons]
    cases e with
    | errorEv =>
      by_cases hf : st.forwardError = true
      · exact ih _ (by simp [stepEvent, hf])
      · rw [h] at hf; exact absurd rfl hf
    | fileEv => exact ih _ (by simp [stepEvent])
    | headersEv =>
      by_cases hh : assetsHit a p = true
      · exact ih _ (by simp [stepEvent, hh, h])
      · exact ih _ (by simp [stepEvent, hh, h])

theorem runEvents_forward_nofile (a p : String) :
    ∀ (evs : List StreamEvent) (st : ResponseState), StreamEvent.fileEv ∉ evs →
      (runEvents a p evs st).forwardError = st.forwardError := by
  intro evs
  induction evs with
  | nil => intro st _; rfl
  | cons e t ih =>
    intro st h
    have he : e ≠ .fileEv := by
      intro hq
      exact h (by simp [hq])
    have ht : StreamEvent.fileEv ∉ t := fun hq => h (List.mem_cons_of_mem _ hq)
    rw [runEvents_cons]
    cases e with
    | fileEv => exact absurd rfl he
    | errorEv =>
      by_cases hf : st.forwardError = true
      · simpa [stepEvent, hf] using ih _ ht
      · rw [Bool.not_eq_true] at hf
        simpa [stepEvent, hf] using ih _ ht
    | headersEv =>
      by_cases hh : assetsHit a p = true
      · simpa [stepEvent, hh] using ih _ ht
      · simpa [stepEvent, hh] using ih _ ht

theorem runEvents_forward_file (a p : String) :
    ∀ (evs : List StreamEvent) (st : ResponseState), StreamEvent.fileEv ∈ evs →
      (runEvents a p evs st).forwardError = true := by
  intro evs
  induction evs with
  | nil => intro st h; simp at h
  | cons e t ih =>
    intro st h
    rw [runEvents_cons]
    cases e with
    | fileEv => exact runEvents_forward_mono a p t _ (by simp [stepEvent])
    | errorEv =>
      have ht : StreamEvent.fileEv ∈ t := by simpa using h
      exact ih _ ht
    | headersEv =>
      have ht : StreamEvent.fileEv ∈ t := by simpa using h
      exact ih _ ht

theorem runEvents_header_mem (a p : String) :
    ∀ (evs : List StreamEvent) (st : ResponseState),
      (("Cache-Control", immutableCacheValue) ∈ (runEvents a p evs st).resHeaders) ↔
        (("Cache-Control", immutableCacheValue) ∈ st.resHeaders ∨
          (assetsHit a p = true ∧ StreamEvent.headersEv ∈ evs)) := by
  intro evs
  induction evs with
  | nil => intro st; simp [runEvents_nil]
  | cons e t ih =>
    intro st
    rw [runEvents_cons, ih]
    cases e with
    | errorEv =>
      by_cases hf : st.forwardError = true
      · simp [stepEvent, hf]
      · rw [Bool.not_eq_true] at hf
        simp [stepEvent, hf]
    | fileEv => simp [stepEvent]
    | headersEv =>
      by_cases hh : assetsHit a p = true
      · simp [stepEvent, hh]
      · rw [Bool.not_eq_true] at hh
        simp [stepEvent, hh]

/-! ## Helper lemmas on the directory walk -/

theorem iterDirname_zero (s : String) : iterDirname 0 s = s := rfl

theorem iterDirname_succ (n : Nat) (s : String) :
    iterDirname (n + 1) s = iterDirname n (posixDirname s) := by
  simp [iterDirname, Function.iterate_succ_apply]

theorem walkFuel_finds (folder : String) :
    ∀ (k : Nat) (u : String),
      (∀ m, m < k → strEndsWith (iterDirname m u) folder = false) →
      strEndsWith (iterDirname k u) folder = true →
      walkFuel folder (k + 1) u = some (iterDirname k u) := by
  intro k
  induction k with
  | zero =>
    intro u _ hk
    rw [iterDirname_zero] at hk ⊢
    simp [walkFuel, hk]
  | succ n ih =>
    intro u hlt hk
    have h0 : strEndsWith u folder = false := by
      have := hlt 0 (Nat.succ_pos n)
      rwa [iterDirname_zero] at this
    rw [iterDirname_succ] at hk
    have hlt2 : ∀ m, m < n → strEndsWith (iterDirname m (posixDirname u)) folder = false := by
      intro m hm
      have := hlt (m + 1) (by omega)
      rwa [iterDirname_succ] at this
    have := ih (posixDirname u) hlt2 hk
    rw [iterDirname_succ]
    simpa [walkFuel, h0] using this

/-! ## Helper lemmas on the normalizer and handler -/

theorem ignoreBranch_not_redirect (dir : Bool) (P : String) :
    isRedirectR (ignoreBranch dir P) = false := by
  unfold ignoreBranch
  split
  · rfl
  · rfl

theorem normalizeCore_never_noslash (rb : String → String) (m : String) (dir : Bool)
    (P : String) (Q : Option String) (h : strEndsWith P "/" = false) :
    isRedirectR (normalizeCore .never rb m dir P Q) = false := by
  simp only [normalizeCore, h, Bool.and_false]
  exact ignoreBranch_not_redirect dir P

theorem normalizeCore_always_slash (rb : String → String) (m : String) (dir : Bool)
    (P : String) (Q : Option String) (h : strEndsWith P "/" = true) :
    normalizeCore .always rb m dir P Q = .serve P := by
  simp [normalizeCore, h]

theorem handleRequest_eq (pol : TrailingSlash) (rb : String → String)
    (dirp : String → Bool) (m : String) (u : String) :
    handleRequest pol rb dirp m (some u) =
      (match normalizeCore pol rb m (dirp (jsSplitQuery u).1) (jsSplitQuery u).1
          (jsSplitQuery u).2 with
       | .redirect st loc => .redirect st loc
       | .serve p =>
         .delegate (prependForwardSlash (rb p))
           (if strStartsWith (prependForwardSlash (rb p)) "/.well-known/" then
             DotPolicy.allow
           else DotPolicy.deny)) := rfl

theorem handleRequest_not_redirect (pol : TrailingSlash) (rb : String → String)
    (dirp : String → Bool) (m : String) (u : String)
    (h : isRedirectR (normalizeCore pol rb m (dirp (jsSplitQuery u).1) (jsSplitQuery u).1
      (jsSplitQuery u).2) = false) :
    isRedirect (handleRequest pol rb dirp m (some u)) = false := by
  rw [handleRequest_eq]
  cases hn : normalizeCore pol rb m (dirp (jsSplitQuery u).1) (jsSplitQuery u).1
      (jsSplitQuery u).2 with
  | redirect st loc => rw [hn] at h; simp [isRedirectR] at h
  | serve p => simp [isRedirect]

theorem normalizeCore_ignore_not_redirect (rb : String → String) (m : String)
    (dir : Bool) (P : String) (Q : Option String) :
    isRedirectR (normalizeCore .ignore rb m dir P Q) = false :=
  ignoreBranch_not_redirect dir P

theorem handleRequest_split (pol : TrailingSlash) (rb : String → String)
    (dirp : String → Bool) (m u P : String) (Q : Option String)
    (hs : jsSplitQuery u = (P, Q)) :
    handleRequest pol rb dirp m (some u) =
      (match normalizeCore pol rb m (dirp P) P Q with
       | .redirect st loc => .redirect st loc
       | .serve p =>
         .delegate (prependForwardSlash (rb p))
           (if strStartsWith (prependForwardSlash (rb p)) "/.well-known/" then
             DotPolicy.allow
           else DotPolicy.deny)) := by
  rw [handleRequest_eq, hs]

/-! ## The claims -/

/-- C1: under policy never, a request whose path component names a directory
(per the probe), ends in a slash and is not the root produces a 301 redirect
whose Location is the path with the trailing slash stripped; a nonempty query
is re-attached verbatim after a literal question mark, an absent or empty
query contributes nothing. -/
theorem claimC1_never_redirect (rb : String → String) (dirp : String → Bool)
    (m u P : String) (Q : Option String)
    (hsplit : jsSplitQuery u = (P, Q))
    (hdir : dirp P = true)
    (hslash : strEndsWith P "/" = true)
    (hroot : (P == "/") = false) :
    handleRequest .never rb dirp m (some u) =
      .redirect 301 (jsSlice0m1 P ++ queryTail Q) ∧
    (∀ q, Q = some q → (q == "") = false → queryTail Q = "?" ++ q) ∧
    (Q = none → queryTail Q = "") ∧
    (Q = some "" → queryTail Q = "") := by
  refine ⟨?_, ?_, ?_, ?_⟩
  · rw [handleRequest_split .never rb dirp m u P Q hsplit]
    simp [normalizeCore, hdir, hslash, hroot]
  · intro q hq hqe
    subst hq
    simp [queryTail, hqe]
  · intro hq
    subst hq
    rfl
  · intro hq
    subst hq
    rfl

/-- Witness for C1 at the request /about/?x=1 with /about/ probed as a
directory. -/
theorem claimC1_witness :
    handleRequest .never id (fun p => p == "/about/") "GET" (some "/about/?x=1") =
      .redirect 301 (jsSlice0m1 "/about/" ++ queryTail (some "x=1")) :=
  (claimC1_never_redirect id (fun p => p == "/about/") "GET" "/about/?x=1" "/about/"
    (some "x=1") (by decide) (by decide) (by decide) (by decide)).1

/-- C2 (amended): under policy always, a request whose path lacks a trailing
slash, does not match the subresource regex — which, carrying the i flag,
accepts a dot followed by one or more ASCII letters of either case at the
end — and is not an action POST after base stripping gets a 301 redirect to
the path plus a slash with the query re-appended; every other request is
served unchanged with no redirect. -/
theorem claimC2_always_redirect (rb : String → String) (m : String) (dir : Bool)
    (P : String) (Q : Option String) :
    normalizeCore .always rb m dir P Q =
      if !(strEndsWith P "/") && !(jsTestSubresource P) &&
          !(jsTestAction (rb P) && m == "POST") then
        .redirect 301 (P ++ "/" ++ queryTail Q)
      else
        .serve P := rfl

/-- C2 counterexample: /logo.PNG carries no lowercase extension, so under the
claim it is not a subresource and a GET under always should be redirected;
the source regex carries the i flag, classifies it as a subresource and
serves it unchanged. -/
theorem claimC2_counterexample :
    strEndsWith "/logo.PNG" "/" = false ∧
    specIsSubresource "/logo.PNG" = false ∧
    jsTestAction "/logo.PNG" = false ∧
    jsTestSubresource "/logo.PNG" = true ∧
    normalizeCore .always id "GET" false "/logo.PNG" none = .serve "/logo.PNG" ∧
    handleRequest .always id (fun _ => false) "GET" (some "/logo.PNG") =
      .delegate "/logo.PNG" .deny := by
  exact ⟨by decide, by decide, by decide, by decide, by decide, by decide⟩

/-- C3: with exactly one error event in the stream, an error with no earlier
file event leaves the SSR counter at one and writes no status or body, while
an error after a file event writes status 500 with the generic body and
leaves the SSR counter at zero. -/
theorem claimC3_error_dichotomy (assets pathname : String)
    (pre post : List StreamEvent)
    (hpre : StreamEvent.errorEv ∉ pre) (hpost : StreamEvent.errorEv ∉ post) :
    (StreamEvent.fileEv ∉ pre →
      (runEvents assets pathname (pre ++ .errorEv :: post) initialResponse).ssrCalls = 1 ∧
      (runEvents assets pathname (pre ++ .errorEv :: post) initialResponse).statusWritten =
        none ∧
      (runEvents assets pathname (pre ++ .errorEv :: post) initialResponse).bodyWritten =
        none) ∧
    (StreamEvent.fileEv ∈ pre →
      (runEvents assets pathname (pre ++ .errorEv :: post) initialResponse).statusWritten =
        some 500 ∧
      (runEvents assets pathname (pre ++ .errorEv :: post) initialResponse).bodyWritten =
        some "Internal server error" ∧
      (runEvents assets pathname (pre ++ .errorEv :: post) initialResponse).ssrCalls = 0) := by
  have hrw : runEvents assets pathname (pre ++ .errorEv :: post) initialResponse =
      runEvents assets pathname post
        (stepEvent assets pathname (runEvents assets pathname pre initialResponse)
          .errorEv) := by
    rw [runEvents_append, runEvents_cons]
  obtain ⟨hs, hst, hb⟩ := runEvents_noerror assets pathname pre initialResponse hpre
  constructor
  · intro hnof
    have hfwd : (runEvents assets pathname pre initialResponse).forwardError = false :=
      runEvents_forward_nofile assets pathname pre initialResponse hnof
    have hstep : stepEvent assets pathname (runEvents assets pathname pre initialResponse)
        .errorEv =
        { runEvents assets pathname pre initialResponse with
            ssrCalls := (runEvents assets pathname pre initialResponse).ssrCalls + 1 } := by
      simp [stepEvent, hfwd]
    obtain ⟨hs2, hst2, hb2⟩ := runEvents_noerror assets pathname post
      (stepEvent assets pathname (runEvents assets pathname pre initialResponse) .errorEv)
      hpost
    rw [hrw]
    refine ⟨?_, ?_, ?_⟩
    · rw [hs2, hstep]
      dsimp only
      rw [hs]
      rfl
    · rw [hst2, hstep]
      dsimp only
      exact hst
    · rw [hb2, hstep]
      dsimp only
      exact hb
  · intro hmem
    have hfwd : (runEvents assets pathname pre initialResponse).forwardError = true :=
      runEvents_forward_file assets pathname pre initialResponse hmem
    have hstep : stepEvent assets pathname (runEvents assets pathname pre initialResponse)
        .errorEv =
        { runEvents assets pathname pre initialResponse with
            statusWritten := some 500, bodyWritten := some "Internal server error" } := by
      simp [stepEvent, hfwd]
    obtain ⟨hs2, hst2, hb2⟩ := runEvents_noerror assets pathname post
      (stepEvent assets pathname (runEvents assets pathname pre initialResponse) .errorEv)
      hpost
    rw [hrw]
    refine ⟨?_, ?_, ?_⟩
    · rw [hst2, hstep]
    · rw [hb2, hstep]
    · rw [hs2, hstep]
      dsimp only
      exact hs

/-- Witness for C3: a file event, then the error, gives a 500 with the
generic body and no fallback call. -/
theorem claimC3_witness :
    (runEvents "_astro" "/about" ([StreamEvent.fileEv] ++ .errorEv :: [])
        initialResponse).statusWritten = some 500 ∧
    (runEvents "_astro" "/about" ([StreamEvent.fileEv] ++ .errorEv :: [])
        initialResponse).bodyWritten = some "Internal server error" ∧
    (runEvents "_astro" "/about" ([StreamEvent.fileEv] ++ .errorEv :: [])
        initialResponse).ssrCalls = 0 :=
  (claimC3_error_dichotomy "_astro" "/about" [StreamEvent.fileEv] [] (by decide)
    (by decide)).2 (by decide)

/-- C4: under policy ignore, a directory path without a trailing slash is
rewritten to its index.html, every other path is served unchanged, and the
handler never redirects under ignore, whatever the request. -/
theorem claimC4_ignore_rewrite (rb : String → String) (m : String) (dir : Bool)
    (P : String) (Q : Option String) :
    normalizeCore .ignore rb m dir P Q =
      (if dir && !(strEndsWith P "/") then
        Routing.serve (P ++ "/index.html")
      else
        Routing.serve P) ∧
    (∀ (dirp : String → Bool) (m2 u : String),
      isRedirect (handleRequest .ignore rb dirp m2 (some u)) = false) ∧
    (∀ (dirp : String → Bool) (m2 : String),
      isRedirect (handleRequest .ignore rb dirp m2 none) = false) := by
  refine ⟨rfl, ?_, ?_⟩
  · intro dirp m2 u
    exact handleRequest_not_redirect .ignore rb dirp m2 u
      (normalizeCore_ignore_not_redirect rb m2 _ _ _)
  · intro dirp m2
    rfl

/-- C6: whenever the never arm does not redirect, its decision is the very
decision of the ignore arm on the same input — the fallthrough of the
switch. -/
theorem claimC6_never_falls_to_ignore (rb : String → String) (m : String)
    (dir : Bool) (P : String) (Q : Option String)
    (h : isRedirectR (normalizeCore .never rb m dir P Q) = false) :
    normalizeCore .never rb m dir P Q = normalizeCore .ignore rb m dir P Q := by
  simp only [normalizeCore] at h ⊢
  by_cases hc : (dir && !(P == "/") && strEndsWith P "/") = true
  · rw [if_pos hc] at h
    simp [isRedirectR] at h
  · rw [Bool.not_eq_true] at hc
    simp [hc]

/-- Witness for C6 at a directory path without a trailing slash. -/
theorem claimC6_witness :
    normalizeCore .never id "GET" true "/about" none =
      normalizeCore .ignore id "GET" true "/about" none :=
  claimC6_never_falls_to_ignore id "GET" true "/about" none (by decide)

/-- C7: after any sequence of stream events, the response headers carry the
far-future Cache-Control value exactly when the resolved pathname lies under
the hashed-assets folder and a headers event fired. -/
theorem claimC7_cache_header (assets pathname : String) (evs : List StreamEvent) :
    (("Cache-Control", immutableCacheValue) ∈
        (runEvents assets pathname evs initialResponse).resHeaders) ↔
      (assetsHit assets pathname = true ∧ StreamEvent.headersEv ∈ evs) := by
  rw [runEvents_header_mem]
  simp [initialResponse]

/-- C8: whenever the handler delegates to the file-serving collaborator, the
dotfile policy is allow exactly when the resolved pathname starts with the
well-known prefix, for every trailing-slash policy. -/
theorem claimC8_dotfiles (pol : TrailingSlash) (rb : String → String)
    (dirp : String → Bool) (m : String) (reqUrl : Option String) (p : String)
    (d : DotPolicy)
    (h : handleRequest pol rb dirp m reqUrl = .delegate p d) :
    d = .allow ↔ strStartsWith p "/.well-known/" = true := by
  cases reqUrl with
  | none => simp [handleRequest] at h
  | some u =>
    rw [handleRequest_eq] at h
    split at h
    · simp at h
    · rename_i p0 hn
      rw [HandlerOutcome.delegate.injEq] at h
      obtain ⟨hp, hd⟩ := h
      rw [← hd, ← hp]
      by_cases hc : strStartsWith (prependForwardSlash (rb p0)) "/.well-known/" = true
      · simp [hc]
      · rw [Bool.not_eq_true] at hc
        simp [hc]

/-- Witness for C8 at a request under the well-known prefix. -/
theorem claimC8_witness :
    DotPolicy.allow = DotPolicy.allow ↔
      strStartsWith "/.well-known/a" "/.well-known/" = true :=
  claimC8_dotfiles .ignore id (fun _ => false) "GET" (some "/.well-known/a")
    "/.well-known/a" .allow (by decide)

theorem takeWhile_path_slash (P : String) (Q : Option String)
    (hP : hasChar P.data '?' = false)
    (hQ : ∀ q, Q = some q → hasChar q.data '?' = false) :
    (P ++ "/" ++ queryTail Q).data.takeWhile (fun c => c != '?') =
      P.data ++ ['/'] := by
  have hall : ∀ x ∈ P.data ++ ['/'], ((x != '?') = true) := by
    intro x hx
    rcases List.mem_append.1 hx with h1 | h1
    · have := hasChar_false_mem hP x h1
      simp [bne, this]
    · simp at h1
      simp [h1]
  cases Q with
  | none =>
    have hd : (P ++ "/" ++ queryTail none).data = P.data ++ ['/'] := by
      simp [queryTail, strData_append]
    rw [hd]
    exact takeWhile_of_all _ hall
  | some q =>
    by_cases hq : (q == "") = true
    · have hqe : q = "" := by simpa using hq
      subst hqe
      have hd : (P ++ "/" ++ queryTail (some "")).data = P.data ++ ['/'] := by
        simp [queryTail, strData_append]
      rw [hd]
      exact takeWhile_of_all _ hall
    · rw [Bool.not_eq_true] at hq
      have hd : (P ++ "/" ++ queryTail (some q)).data =
          (P.data ++ ['/']) ++ '?' :: q.data := by
        simp [queryTail, hq, strData_append, List.append_assoc]
      rw [hd]
      exact takeWhile_stop _ '?' _ hall (by decide)

theorem takeWhile_path_dropLast (P : String) (Q : Option String)
    (hP : hasChar P.data '?' = false)
    (hQ : ∀ q, Q = some q → hasChar q.data '?' = false) :
    (jsSlice0m1 P ++ queryTail Q).data.takeWhile (fun c => c != '?') =
      P.data.dropLast := by
  have hP2 : hasChar P.data.dropLast '?' = false := hasChar_dropLast hP
  have hall : ∀ x ∈ P.data.dropLast, ((x != '?') = true) := by
    intro x hx
    have := hasChar_false_mem hP2 x hx
    simp [bne, this]
  cases Q with
  | none =>
    have hd : (jsSlice0m1 P ++ queryTail none).data = P.data.dropLast := by
      simp [queryTail, strData_append, jsSlice0m1]
    rw [hd]
    exact takeWhile_of_all _ hall
  | some q =>
    by_cases hq : (q == "") = true
    · have hqe : q = "" := by simpa using hq
      subst hqe
      have hd : (jsSlice0m1 P ++ queryTail (some "")).data = P.data.dropLast := by
        simp [queryTail, strData_append, jsSlice0m1]
      rw [hd]
      exact takeWhile_of_all _ hall
    · rw [Bool.not_eq_true] at hq
      have hd : (jsSlice0m1 P ++ queryTail (some q)).data =
          P.data.dropLast ++ '?' :: q.data := by
        simp [queryTail, hq, strData_append, jsSlice0m1]
      rw [hd]
      exact takeWhile_stop _ '?' _ hall (by decide)

theorem strEndsWith_mk_slash (cs : List Char) :
    strEndsWith (⟨cs ++ ['/']⟩ : String) "/" = true := by
  simp [strEndsWith, List.isSuffixOf, List.isPrefixOf]

/-- C5 (amended): the already-canonical half holds because the normalizer is
a pure function of its input; for redirect targets, re-running the handler
on the Location of a redirect never redirects again — under always
unconditionally and under never provided the path component of the Location
does not itself end in a slash, which fails only when the original path
ended in two or more consecutive slashes; ignore never redirects at all. -/
theorem claimC5_target_canonical (pol : TrailingSlash) (rb : String → String)
    (dirp dirp2 : String → Bool) (m m2 u : String) (st : Nat) (loc : String)
    (hred : handleRequest pol rb dirp m (some u) = .redirect st loc)
    (hnoslash : pol = .never →
      strEndsWith (⟨loc.data.takeWhile (fun c => c != '?')⟩ : String) "/" = false) :
    isRedirect (handleRequest pol rb dirp2 m2 (some loc)) = false := by
  apply handleRequest_not_redirect
  rw [jsSplitQuery_fst loc]
  cases pol with
  | ignore => exact normalizeCore_ignore_not_redirect rb m2 _ _ _
  | never => exact normalizeCore_never_noslash rb m2 _ _ _ (hnoslash rfl)
  | always =>
    rw [handleRequest_eq] at hred
    cases hn : normalizeCore .always rb m (dirp (jsSplitQuery u).1) (jsSplitQuery u).1
        (jsSplitQuery u).2 with
    | serve p0 =>
      rw [hn] at hred
      simp at hred
    | redirect s2 l2 =>
      rw [hn] at hred
      rw [HandlerOutcome.redirect.injEq] at hred
      obtain ⟨hst2, hloc⟩ := hred
      subst hloc
      simp only [normalizeCore] at hn
      split at hn
      · rw [Routing.redirect.injEq] at hn
        obtain ⟨hs3, hl3⟩ := hn
        rw [← hl3]
        have hsl : strEndsWith
            (⟨((jsSplitQuery u).1 ++ "/" ++
                queryTail (jsSplitQuery u).2).data.takeWhile (fun c => c != '?')⟩ : String)
            "/" = true := by
          rw [takeWhile_path_slash _ _ (jsSplitQuery_fst_no_q u) (jsSplitQuery_snd_no_q u)]
          exact strEndsWith_mk_slash _
        rw [normalizeCore_always_slash _ _ _ _ _ hsl]
        rfl
      · exact absurd hn (by simp)

/-- Witness for C5 at the redirect from /about/?x=1 to /about?x=1 under
never. -/
theorem claimC5_witness :
    isRedirect (handleRequest .never id (fun p => p == "/about/") "GET"
      (some "/about?x=1")) = false :=
  claimC5_target_canonical .never id (fun p => p == "/about/") (fun p => p == "/about/")
    "GET" "GET" "/about/?x=1" 301 "/about?x=1" (by decide) (fun _ => by decide)

/-- C5 counterexample: the request /a// names a directory, so never redirects
it to /a/, whose path component still ends in a slash (path.join collapses
the duplicate slash, so the probe sees the same directory) and which the
same policy redirects again — the Location of a redirect is not canonical. -/
theorem claimC5_counterexample :
    handleRequest .never id cexDirp "GET" (some "/a//") = .redirect 301 "/a/" ∧
    isRedirect (handleRequest .never id cexDirp "GET" (some "/a/")) = true := by
  exact ⟨by decide, by decide⟩

/-- C9 (amended): whenever some iterated parent of the starting location ends
with the server folder name, the upward walk terminates and stops at the
first such ancestor; when no iterate ever matches, the loop never stops —
the parent function reaches the fixed point of the single dot and the source
raises no configuration error. -/
theorem claimC9_walk_first_match (start folder : String)
    (h : ∃ n, strEndsWith (iterDirname n start) folder = true) :
    walkFuel folder (Nat.find h + 1) start =
      some (iterDirname (Nat.find h) start) := by
  apply walkFuel_finds
  · intro m hm
    have := Nat.find_min h hm
    simpa using this
  · exact Nat.find_spec h

/-- Witness for C9: from a chunks folder inside the server folder, the walk
stops one level up, at the first ancestor named server. -/
theorem claimC9_witness :
    walkFuel "server" 2 "file:///app/dist/server/chunks" =
      some "file:///app/dist/server" := by
  have h : ∃ n, strEndsWith (iterDirname n "file:///app/dist/server/chunks")
      "server" = true := ⟨1, by decide⟩
  have hf : Nat.find h = 1 := by
    rw [Nat.find_eq_iff]
    constructor
    · decide
    · intro k hk
      have hk0 : k = 0 := by omega
      subst hk0
      decide
  have hmain := claimC9_walk_first_match "file:///app/dist/server/chunks" "server" h
  rw [hf] at hmain
  exact hmain.trans (by decide)

/-- C9 counterexample: from a location with no ancestor named server the walk
is still running after forty steps, because after three steps the parent
function is stuck at the single dot, its fixed point, which never ends with
the folder name — the loop neither terminates nor raises an error. -/
theorem claimC9_counterexample :
    walkFuel "server" 40 "file:///x/y" = none ∧
    iterDirname 3 "file:///x/y" = "." ∧
    posixDirname "." = "." ∧
    strEndsWith "." "server" = false := by
  exact ⟨by decide, by decide, by decide, by decide⟩

/-- C10: a request url ending in a lone question mark carries the empty
query, which both redirecting policies treat as absent — the Location holds
no question mark at all; and since the split keeps only the first two
components, everything after a second question mark has no effect on the
outcome. -/
theorem claimC10_query_edge (pol : TrailingSlash) (rb : String → String)
    (dirp : String → Bool) (m a b c c2 : String)
    (ha : hasChar a.data '?' = false) (hb : hasChar b.data '?' = false) :
    (∀ st loc, handleRequest .never rb dirp m (some (a ++ "?")) = .redirect st loc →
      hasChar loc.data '?' = false) ∧
    (∀ st loc, handleRequest .always rb dirp m (some (a ++ "?")) = .redirect st loc →
      hasChar loc.data '?' = false) ∧
    handleRequest pol rb dirp m (some (a ++ "?" ++ b ++ "?" ++ c)) =
      handleRequest pol rb dirp m (some (a ++ "?" ++ b ++ "?" ++ c2)) := by
  have hsingle := jsSplitQuery_single a ha
  refine ⟨?_, ?_, ?_⟩
  · intro st loc h
    rw [handleRequest_split .never rb dirp m _ a (some "") hsingle] at h
    split at h
    · rename_i s2 l2 hn
      rw [HandlerOutcome.redirect.injEq] at h
      obtain ⟨hs3, hl3⟩ := h
      simp only [normalizeCore] at hn
      split at hn
      · rw [Routing.redirect.injEq] at hn
        obtain ⟨hs4, hl4⟩ := hn
        rw [← hl3, ← hl4]
        have hd : (jsSlice0m1 a ++ queryTail (some "")).data = a.data.dropLast := by
          simp [queryTail, strData_append, jsSlice0m1]
        rw [hd]
        exact hasChar_dropLast ha
      · have h2 := ignoreBranch_not_redirect (dirp a) a
        rw [hn] at h2
        simp [isRedirectR] at h2
    · simp at h
  · intro st loc h
    rw [handleRequest_split .always rb dirp m _ a (some "") hsingle] at h
    split at h
    · rename_i s2 l2 hn
      rw [HandlerOutcome.redirect.injEq] at h
      obtain ⟨hs3, hl3⟩ := h
      simp only [normalizeCore] at hn
      split at hn
      · rw [Routing.redirect.injEq] at hn
        obtain ⟨hs4, hl4⟩ := hn
        rw [← hl3, ← hl4]
        have hd : (a ++ "/" ++ queryTail (some "")).data = a.data ++ ['/'] := by
          simp [queryTail, strData_append]
        rw [hd, hasChar_append]
        rw [ha]
        decide
      · exact absurd hn (by simp)
    · simp at h
  · rw [handleRequest_split pol rb dirp m _ a (some b) (jsSplitQuery_double a b c ha hb),
      handleRequest_split pol rb dirp m _ a (some b) (jsSplitQuery_double a b c2 ha hb)]

/-- Witness for C10: the content after the second question mark does not
change the outcome. -/
theorem claimC10_witness :
    handleRequest .ignore id (fun _ => false) "GET"
        (some ("x" ++ "?" ++ "y" ++ "?" ++ "z1")) =
      handleRequest .ignore id (fun _ => false) "GET"
        (some ("x" ++ "?" ++ "y" ++ "?" ++ "z2")) :=
  (claimC10_query_edge .ignore id (fun _ => false) "GET" "x" "y" "z1" "z2"
    (by decide) (by decide)).2.2
